import Mathlib

/-! # Helper functions of `src/helpers.cpp`

A shallow embedding of `string_replace`, `get_remote_json`, `download_remote_file` and
`hmac_sha1_hex`, together with the collaborators they call (the string class, the HTTP client,
the file system, the JSON parser and the HMAC primitive).

Conventions of the embedding:

* a `std::string` is the list of its `char`s;
* a C++ expression that may throw is a value of `Except Exn α`, the error being the exception
  in flight; `try`/`catch` becomes a match on the exception it names;
* a loop whose termination needs an argument carries a fuel counter and returns `none` when the
  counter runs out; the theorems show that the fuel given by the caller is always enough;
* the 64-bit byte counter of the download is a natural number reduced modulo `2 ^ 64`.
-/

namespace Helpers

/-- The C++ `std::string`: a sequence of `char`. -/
abbrev string := List Char

/-- The exceptions that can be in flight in the embedded functions. -/
inductive Exn where
  | http_exception
  | invalid_argument
  | out_of_range
  | filesystem_error
  deriving DecidableEq, Repr

deriving instance DecidableEq for Except

/-! ## `std::string` members used by `string_replace` -/

/-- Position of the first occurrence of `search` in `s`, as `std::string::find` computes it
from position 0: the least `p` with `s.substr(p, search.size()) == search`. -/
def find_first (search : string) : string → Option Nat
  | [] => if search.isEmpty then some 0 else none
  | c :: cs =>
    if search.isPrefixOf (c :: cs) then some 0
    else (find_first search cs).map (· + 1)

/-- The call `str.find(search, pos)`: the least position `p ≥ pos` at which `search` occurs in
`str`; `none` stands for `string::npos`. -/
def find (str search : string) (pos : Nat) : Option Nat :=
  if pos ≤ str.length then (find_first search (str.drop pos)).map (· + pos) else none

/-- The call `str.substr(pos, n)` (`n = none` for the one-argument form): it throws
`out_of_range` when `pos > str.size()`. -/
def substr (str : string) (pos : Nat) (n : Option Nat) : Except Exn string :=
  if str.length < pos then .error .out_of_range
  else match n with
    | none => .ok (str.drop pos)
    | some n => .ok ((str.drop pos).take n)

/-! ## `string_replace` -/

/-- The `while` loop of `string_replace`, lines 38-44, with the statement after the loop: the
state is `start_pos` and `ws_ret`; the result is the final `ws_ret`. `none` is fuel exhaustion. -/
def string_replace_loop (str search replace : string) :
    Nat → Nat → string → Option (Except Exn string)
  | 0, _, _ => none
  | fuel + 1, start_pos, ws_ret =>
    match find str search start_pos with
    | some pos =>
      match substr str start_pos (some (pos - start_pos)) with
      | .error e => some (.error e)
      | .ok piece =>
        string_replace_loop str search replace fuel (pos + search.length)
          (ws_ret ++ piece ++ replace)
    | none =>
      match substr str start_pos none with
      | .error e => some (.error e)
      | .ok piece => some (.ok (ws_ret ++ piece))

/-- The function `string_replace(str, search, replace)`; the result is the value left in the
reference parameter `str`. -/
def string_replace (str search replace : string) : Option (Except Exn string) :=
  if search.isEmpty then some (.ok str)
  else string_replace_loop str search replace (str.length + 1) 0 []

/-- Reference function for the proofs about `string_replace`: replace the first occurrence and
continue behind it. It is total by recursion on the length of the string. -/
def replace_all (search replace : string) (s : string) : string :=
  match _hfind : find_first search s with
  | none => s
  | some p =>
    if search.isEmpty then s
    else s.take p ++ replace ++ replace_all search replace (s.drop (p + search.length))
termination_by s.length
decreasing_by
  rename_i hs
  have h1 : 0 < search.length := by
    cases search with
    | nil => simp at hs
    | cons _ _ => simp
  have h2 : 0 < s.length := by
    cases s with
    | nil =>
      cases search with
      | nil => simp at hs
      | cons _ _ => simp [find_first] at _hfind
    | cons _ _ => simp
  simp only [List.length_drop]
  omega

/-! ## The HTTP client and the file system -/

/-- An outgoing request: the method and the headers added by the caller. -/
structure http_request where
  method : string
  headers : List (string × string)
  deriving DecidableEq

/-- What the HTTP library lets the caller observe of a response. A task of the library either
yields its value or fails with `http_exception`; the failure is written `none`.
`body_reads` lists the results of the successive calls `body_stream.read(buffer, 8192)`: the
bytes delivered by one call, or the failure of the read task; once the list is used up every
further read delivers zero bytes (end of stream).
`utf8string` is the result of the task `extract_utf8string(true)`. -/
structure http_response where
  status_code : Nat
  content_length_header : Option Nat
  body_reads : List (Option string)
  utf8string : Option string

/-- The call `response.headers().content_length()`: the declared length, and 0 when the header
is absent. -/
def http_response.content_length (response : http_response) : Nat :=
  response.content_length_header.getD 0

/-- What a path of the file system holds: a regular file with its content, or a directory. -/
inductive Entry where
  | file (content : string)
  | directory
  deriving DecidableEq

/-- The file system: what each path holds, `none` where nothing exists. -/
abbrev FileSystem := string → Option Entry

/-- The call `boost::filesystem::exists(path)`: true for a file and for a directory. -/
def FileSystem.«exists» (fs : FileSystem) (path : string) : Bool :=
  (fs path).isSome

/-- The file system in which `path` is a regular file holding `content`. -/
def FileSystem.write (fs : FileSystem) (path : string) (content : string) : FileSystem :=
  fun p => if p = path then some (.file content) else fs p

/-- The file system after a successful `boost::filesystem::remove(path)`. -/
def FileSystem.remove (fs : FileSystem) (path : string) : FileSystem :=
  fun p => if p = path then none else fs p

/-- The collaborators of the helper functions. `J` is the type of JSON values.
`CQAPP_USER_AGENT` is the constant of `app.h`; `ansi` is the conversion of a path to the ANSI
code page (`string_encode(s, Encodings::ANSI)`); `http_client_request url request` is the
outcome of the task `http_client(url).request(request)`, `none` when it fails with
`http_exception`; `can_open fs path` tells whether an `ofstream` on `path` opens in the file
system `fs` (it does not on a directory, on a file that may not be written, or where the
parent directory is missing); `can_remove fs path` tells whether
`boost::filesystem::remove(path)` succeeds in `fs` (it does not on a directory that is not
empty or on a file that may not be deleted, and then throws `filesystem_error`); `json_parse`
is `json::parse`. The widening `s2ws` of a string changes nothing here and is left out. -/
structure Env (J : Type) where
  CQAPP_USER_AGENT : string
  ansi : string → string
  http_client_request : string → http_request → Option http_response
  can_open : FileSystem → string → Bool
  can_remove : FileSystem → string → Bool
  json_parse : string → Except Exn J

/-- The method `http::methods::GET`. -/
def GET : string := "GET".toList

/-- The browser signature sent when `use_fake_ua` is set. -/
def FAKE_USER_AGENT : string :=
  ("Mozilla/5.0 (Windows NT 10.0; Win64; x64) " ++ "AppleWebKit/537.36 (KHTML, like Gecko) "
    ++ "Chrome/56.0.2924.87 Safari/537.36").toList

/-! ## `get_remote_json` -/

/-- The request built by `get_remote_json`, lines 79-80. -/
def json_request {J : Type} (env : Env J) : http_request :=
  { method := GET, headers := [("User-Agent".toList, env.CQAPP_USER_AGENT)] }

/-- The first continuation of `get_remote_json`, lines 83-94: the task that yields the body.
It starts as the finished task holding the empty string and becomes the extraction task when
the status is 200; a failed request is caught here. -/
def get_remote_json_body (request_task : Option http_response) : Except Exn string :=
  match request_task with
  | some resp =>
    if resp.status_code = 200 then
      match resp.utf8string with
      | some body => .ok body
      | none => .error .http_exception
    else .ok []
  | none => .ok []

/-- The second continuation of `get_remote_json`, lines 95-101; it runs on the value of the
body task. -/
def get_remote_json_parse {J : Type} (env : Env J) (body : string) : Except Exn (Option J) :=
  if !body.isEmpty then
    match env.json_parse body with
    | .ok j => .ok (some j)
    | .error e => .error e
  else .ok none

/-- The function `get_remote_json(url)`: `.ok none` is `nullopt`, and `.error e` an exception
that leaves the function. -/
def get_remote_json {J : Type} (env : Env J) (url : string) : Except Exn (Option J) :=
  let task : Except Exn (Option J) :=
    match get_remote_json_body (env.http_client_request url (json_request env)) with
    | .ok body => get_remote_json_parse env body
    | .error e => .error e
  match task with
  | .error .invalid_argument => .ok none
  | r => r

/-! ## `download_remote_file` -/

/-- The request built by `download_remote_file`, lines 117-125. -/
def download_request {J : Type} (env : Env J) (url : string) (use_fake_ua : Bool) :
    http_request :=
  let user_agent := if use_fake_ua then FAKE_USER_AGENT else env.CQAPP_USER_AGENT
  { method := GET, headers := [("User-Agent".toList, user_agent), ("Referer".toList, url)] }

/-- The `do ... while (last_read_count > 0)` loop, lines 134-142. The arguments are the reads
still to come, `read_count` and the content written to `f` so far; the result is the final
`read_count`, or the exception of a failed read, with the content of `f`. -/
def read_loop : List (Option string) → Nat → string → Except Exn Nat × string
  | [], read_count, f => (.ok ((read_count + 0) % 2 ^ 64), f)
  | none :: _, _, f => (.error .http_exception, f)
  | some buffer :: rest, read_count, f =>
    let count := buffer.length
    let read_count := (read_count + count) % 2 ^ 64
    let f := f ++ buffer
    if count > 0 then read_loop rest read_count f else (.ok read_count, f)

/-- Lines 151-155: the removal of what is at the path after a failed attempt, and the
returned flag. The call of line 152 is the overload of `boost::filesystem::remove` that throws
`filesystem_error` when the removal fails; nothing catches it, so the exception leaves the
function and the path keeps what it holds. -/
def download_cleanup {J : Type} (env : Env J) (fs : FileSystem) (ansi_local_path : string)
    (succeeded : Bool) : Except Exn Bool × FileSystem :=
  if !succeeded && fs.exists ansi_local_path then
    if env.can_remove fs ansi_local_path then (.ok succeeded, fs.remove ansi_local_path)
    else (.error .filesystem_error, fs)
  else (.ok succeeded, fs)

/-- The function `download_remote_file(url, local_path, use_fake_ua)` run on the file system
`fs`: the returned flag, or the exception that leaves the function, and the file system after
the call.
The continuation of line 127 takes the response by value, so it does not run when the request
task fails, and the `wait()` of line 149 rethrows the failure; in the same way the `wait()` of
line 139 rethrows the failure of a read, which leaves the continuation and then the function.
The function has no handler, so in both cases lines 151-155 are not reached. The file stream
is closed when the continuation is left, with the chunks written so far in the file. -/
def download_remote_file {J : Type} (env : Env J) (fs : FileSystem) (url local_path : string)
    (use_fake_ua : Bool) : Except Exn Bool × FileSystem :=
  let ansi_local_path := env.ansi local_path
  match env.http_client_request url (download_request env url use_fake_ua) with
  | none => (.error .http_exception, fs)
  | some response =>
    if env.can_open fs ansi_local_path then
      -- opening with `ios::out | ios::binary` creates the file or empties it
      let fs := fs.write ansi_local_path []
      let length := response.content_length
      match read_loop response.body_reads 0 [] with
      | (.error e, f) => (.error e, fs.write ansi_local_path f)
      | (.ok read_count, f) =>
        download_cleanup env (fs.write ansi_local_path f) ansi_local_path
          (decide (read_count = length))
    else download_cleanup env fs ansi_local_path false

/-! ## A reference JSON parser

The theorems on `get_remote_json` hold for every parser `json_parse`. To run the function on
concrete bodies the collaborator is instantiated with the parser below, which follows the JSON
grammar (RFC 8259): one value between optional white space, and nothing after it. -/

/-- A JSON value. Numbers keep their lexeme. -/
inductive json where
  | null
  | boolean (b : Bool)
  | number (lexeme : string)
  | str (s : string)
  | array (items : List json)
  | object (members : List (string × json))

/-- Drop leading JSON white space. -/
def skip_ws : string → string
  | [] => []
  | c :: cs => if c = ' ' ∨ c = '\n' ∨ c = '\r' ∨ c = '\t' then skip_ws cs else c :: cs

/-- Remove the literal `lit` from the front of `s`. -/
def expect_literal (lit s : string) : Option string :=
  if lit.isPrefixOf s then some (s.drop lit.length) else none

/-- Whether the character is a hexadecimal digit. -/
def is_hex_digit (c : Char) : Bool :=
  c.isDigit || ('a' ≤ c && c ≤ 'f') || ('A' ≤ c && c ≤ 'F')

/-- The characters of a JSON string after its opening quote, up to the closing quote; escape
sequences are checked and kept as written. -/
def parse_string_body : string → Option (string × string)
  | [] => none
  | c :: cs =>
    if c = '"' then some ([], cs)
    else if c.toNat < 32 then none
    else if c = '\\' then
      match cs with
      | [] => none
      | e :: cs1 =>
        if e = 'u' then
          match cs1 with
          | h1 :: h2 :: h3 :: h4 :: cs2 =>
            if is_hex_digit h1 && is_hex_digit h2 && is_hex_digit h3 && is_hex_digit h4 then
              (parse_string_body cs2).map
                fun (x, r) => (c :: e :: h1 :: h2 :: h3 :: h4 :: x, r)
            else none
          | _ => none
        else if e ∈ ['"', '\\', '/', 'b', 'f', 'n', 'r', 't'] then
          (parse_string_body cs1).map fun (x, r) => (c :: e :: x, r)
        else none
    else (parse_string_body cs).map fun (x, r) => (c :: x, r)

/-- The longest run of decimal digits at the front of `s`, and what follows it. -/
def take_digits : string → string × string
  | [] => ([], [])
  | c :: cs =>
    if c.isDigit then ((take_digits cs).1.cons c, (take_digits cs).2) else ([], c :: cs)

/-- A JSON number at the front of `s`: its lexeme and the rest of the input. -/
def parse_number (s : string) : Option (string × string) :=
  let (sign, s1) := match s with
    | '-' :: r => (['-'], r)
    | _ => ([], s)
  let (int, s2) := take_digits s1
  if int = [] ∨ (int.head? = some '0' ∧ int.length > 1) then none
  else
    let frac : Option (string × string) := match s2 with
      | '.' :: r =>
        let (ds, r1) := take_digits r
        if ds = [] then none else some ('.' :: ds, r1)
      | _ => some ([], s2)
    match frac with
    | none => none
    | some (fr, s3) =>
      let exp : Option (string × string) := match s3 with
        | e :: r =>
          if e = 'e' ∨ e = 'E' then
            let (sg, r1) := match r with
              | '+' :: r0 => (['+'], r0)
              | '-' :: r0 => (['-'], r0)
              | _ => ([], r)
            let (ds, r2) := take_digits r1
            if ds = [] then none else some (e :: sg ++ ds, r2)
          else some ([], s3)
        | [] => some ([], s3)
      match exp with
      | none => none
      | some (ex, s4) => some (sign ++ int ++ fr ++ ex, s4)

mutual

/-- One JSON value at the front of the input (after white space). -/
def parse_value : Nat → string → Option (json × string)
  | 0, _ => none
  | fuel + 1, s =>
    match skip_ws s with
    | [] => none
    | c :: cs =>
      if c = 'n' then (expect_literal "ull".toList cs).map fun r => (json.null, r)
      else if c = 't' then (expect_literal "rue".toList cs).map fun r => (json.boolean true, r)
      else if c = 'f' then
        (expect_literal "alse".toList cs).map fun r => (json.boolean false, r)
      else if c = '"' then (parse_string_body cs).map fun (x, r) => (json.str x, r)
      else if c = '[' then
        match skip_ws cs with
        | ']' :: r => some (json.array [], r)
        | _ => (parse_elements fuel cs).map fun (vs, r) => (json.array vs, r)
      else if c = '{' then
        match skip_ws cs with
        | '}' :: r => some (json.object [], r)
        | _ => (parse_members fuel cs).map fun (ms, r) => (json.object ms, r)
      else (parse_number (c :: cs)).map fun (x, r) => (json.number x, r)

/-- The elements of a non-empty array, up to the closing bracket. -/
def parse_elements : Nat → string → Option (List json × string)
  | 0, _ => none
  | fuel + 1, s =>
    match parse_value fuel s with
    | none => none
    | some (v, r) =>
      match skip_ws r with
      | ',' :: r1 => (parse_elements fuel r1).map fun (vs, r2) => (v :: vs, r2)
      | ']' :: r1 => some ([v], r1)
      | _ => none

/-- The members of a non-empty object, up to the closing brace. -/
def parse_members : Nat → string → Option (List (string × json) × string)
  | 0, _ => none
  | fuel + 1, s =>
    match skip_ws s with
    | '"' :: r =>
      match parse_string_body r with
      | none => none
      | some (k, r1) =>
        match skip_ws r1 with
        | ':' :: r2 =>
          match parse_value fuel r2 with
          | none => none
          | some (v, r3) =>
            match skip_ws r3 with
            | ',' :: r4 => (parse_members fuel r4).map fun (ms, r5) => ((k, v) :: ms, r5)
            | '}' :: r4 => some ([(k, v)], r4)
            | _ => none
        | _ => none
    | _ => none

end

/-- The reference `json::parse`: the input must be exactly one JSON value; any other input
makes it throw `invalid_argument`. -/
def reference_parse (s : string) : Except Exn json :=
  match parse_value (s.length + 1) s with
  | some (v, r) => if skip_ws r = [] then .ok v else .error .invalid_argument
  | none => .error .invalid_argument

/-! ## The HMAC primitive

`hmac_sha1_hex` obtains the digest from the OpenSSL calls `HMAC_Init_ex` (with `EVP_sha1()`),
`HMAC_Update` and `HMAC_Final`. Their result is given here by the definitions of SHA-1
(FIPS 180-4) and HMAC (RFC 2104). A byte is a natural number below 256 and a word a natural
number below `2 ^ 32`. -/

/-- Rotate the 32-bit word `x` left by `n` bits. -/
def rotl32 (x n : Nat) : Nat :=
  ((x <<< n) ||| (x >>> (32 - n))) % 2 ^ 32

/-- The big-endian bytes of the `n`-byte number `x`. -/
def be_bytes : Nat → Nat → List Nat
  | 0, _ => []
  | n + 1, x => be_bytes n (x / 256) ++ [x % 256]

/-- The number with the given big-endian bytes. -/
def be_value (bytes : List Nat) : Nat :=
  bytes.foldl (fun acc b => acc * 256 + b) 0

/-- The padding of SHA-1: a one bit, zeros up to 56 modulo 64, and the bit length on 8 bytes. -/
def sha1_pad (msg : List Nat) : List Nat :=
  msg ++ [128] ++ List.replicate ((119 - msg.length % 64) % 64) 0
    ++ be_bytes 8 (msg.length * 8 % 2 ^ 64)

/-- The 16 words of a 64-byte block. -/
def block_words : Nat → List Nat → List Nat
  | 0, _ => []
  | n + 1, bytes => be_value (bytes.take 4) :: block_words n (bytes.drop 4)

/-- Extend the message schedule by `n` words. -/
def sha1_schedule : Nat → List Nat → List Nat
  | 0, w => w
  | n + 1, w =>
    let t := w.length
    sha1_schedule n (w ++ [rotl32
      (w.getD (t - 3) 0 ^^^ w.getD (t - 8) 0 ^^^ w.getD (t - 14) 0 ^^^ w.getD (t - 16) 0) 1])

/-- The five working variables of SHA-1. -/
structure Sha1State where
  a : Nat
  b : Nat
  c : Nat
  d : Nat
  e : Nat

/-- Round `t` of the compression function on the schedule word `w`. -/
def sha1_round (t w : Nat) (s : Sha1State) : Sha1State :=
  let fk : Nat × Nat :=
    if t < 20 then ((s.b &&& s.c) ||| ((s.b ^^^ 0xFFFFFFFF) &&& s.d), 0x5A827999)
    else if t < 40 then (s.b ^^^ s.c ^^^ s.d, 0x6ED9EBA1)
    else if t < 60 then ((s.b &&& s.c) ||| (s.b &&& s.d) ||| (s.c &&& s.d), 0x8F1BBCDC)
    else (s.b ^^^ s.c ^^^ s.d, 0xCA62C1D6)
  { a := (rotl32 s.a 5 + fk.1 + s.e + fk.2 + w) % 2 ^ 32
    b := s.a
    c := rotl32 s.b 30
    d := s.c
    e := s.d }

/-- The rounds `t, t + 1, ...` on the remaining schedule words. -/
def sha1_rounds : List Nat → Nat → Sha1State → Sha1State
  | [], _, s => s
  | w :: ws, t, s => sha1_rounds ws (t + 1) (sha1_round t w s)

/-- The compression of one 64-byte block into the hash value `h`. -/
def sha1_compress (h : Sha1State) (block : List Nat) : Sha1State :=
  let s := sha1_rounds (sha1_schedule 64 (block_words 16 block)) 0 h
  { a := (h.a + s.a) % 2 ^ 32
    b := (h.b + s.b) % 2 ^ 32
    c := (h.c + s.c) % 2 ^ 32
    d := (h.d + s.d) % 2 ^ 32
    e := (h.e + s.e) % 2 ^ 32 }

/-- The compression of the first `n` blocks of `bytes`. -/
def sha1_blocks : Nat → Sha1State → List Nat → Sha1State
  | 0, h, _ => h
  | n + 1, h, bytes => sha1_blocks n (sha1_compress h (bytes.take 64)) (bytes.drop 64)

/-- The SHA-1 digest of a byte string: 20 bytes. -/
def sha1 (msg : List Nat) : List Nat :=
  let padded := sha1_pad msg
  let h := sha1_blocks (padded.length / 64)
    { a := 0x67452301, b := 0xEFCDAB89, c := 0x98BADCFE, d := 0x10325476, e := 0xC3D2E1F0 }
    padded
  be_bytes 4 h.a ++ be_bytes 4 h.b ++ be_bytes 4 h.c ++ be_bytes 4 h.d ++ be_bytes 4 h.e

/-- The digest `HMAC(key, msg)` with SHA-1 as the hash function. -/
def HMAC_SHA1 (key msg : List Nat) : List Nat :=
  let k0 := if key.length > 64 then sha1 key else key
  let k := k0 ++ List.replicate (64 - k0.length) 0
  sha1 (k.map (· ^^^ 0x5c) ++ sha1 (k.map (· ^^^ 0x36) ++ msg))

/-! ## `hmac_sha1_hex` -/

/-- The bytes behind `s.c_str()`, read as `unsigned char`. -/
def unsigned_chars (s : string) : List Nat :=
  s.map fun c => c.toNat % 256

/-- The text written by `ss << hex << setfill('0') << setw(2) << n` for an unsigned `n`: the
hexadecimal digits of `n`, in lower case, filled on the left with `0` up to two characters. -/
def hex_setw2 (n : Nat) : string :=
  let digits := Nat.toDigits 16 n
  List.replicate (2 - digits.length) '0' ++ digits

/-- The function `hmac_sha1_hex(key, msg)`. -/
def hmac_sha1_hex (key msg : string) : string :=
  let digest := HMAC_SHA1 (unsigned_chars key) (unsigned_chars msg)
  digest.foldl (fun ss byte => ss ++ hex_setw2 byte) []

/-- The value of a lower-case hexadecimal digit. -/
def hex_value (c : Char) : Option Nat :=
  if '0' ≤ c ∧ c ≤ '9' then some (c.toNat - '0'.toNat)
  else if 'a' ≤ c ∧ c ≤ 'f' then some (c.toNat - 'a'.toNat + 10)
  else none

/-- The bytes written as pairs of lower-case hexadecimal digits. -/
def hex_decode : string → Option (List Nat)
  | [] => some []
  | [_] => none
  | hi :: lo :: rest =>
    match hex_value hi, hex_value lo, hex_decode rest with
    | some h, some l, some bytes => some ((h * 16 + l) :: bytes)
    | _, _, _ => none

/-! ## Concrete collaborators

Instances of the collaborators on which the functions can be run. -/

/-- A machine on which every request ends as `request_task`, every path that is not a
directory can be opened, every removal succeeds, and `json::parse` is the reference parser. -/
def test_env (request_task : Option http_response) : Env json :=
  { CQAPP_USER_AGENT := "CoolQHttpApi".toList
    ansi := fun s => s
    http_client_request := fun _ _ => request_task
    can_open := fun fs path => decide (fs path ≠ some Entry.directory)
    can_remove := fun _ _ => true
    json_parse := reference_parse }

/-- A response of which only the body read by `download_remote_file` matters. -/
def test_response (status_code : Nat) (content_length_header : Option Nat)
    (body_reads : List (Option string)) : http_response :=
  { status_code := status_code
    content_length_header := content_length_header
    body_reads := body_reads
    utf8string := none }

/-- A response of which only the text read by `get_remote_json` matters. -/
def text_response (status_code : Nat) (body : string) : http_response :=
  { status_code := status_code
    content_length_header := some body.length
    body_reads := [some body]
    utf8string := some body }

/-- The file system with no file. -/
def no_files : FileSystem := fun _ => none

/-- The file system whose only file is `old.bin`, holding `old`. -/
def old_file : FileSystem := no_files.write "old.bin".toList "old".toList

/-- The environment `env` with every response it gives relabelled with the status `s`. -/
def Env.with_status {J : Type} (env : Env J) (s : Nat) : Env J :=
  { env with
    http_client_request := fun url request =>
      match env.http_client_request url request with
      | some response => some { response with status_code := s }
      | none => none }


/-! ## Lemmas on `find` and `string_replace` -/

theorem find_first_bounds {search s : string} {p : Nat} (h : find_first search s = some p) :
    p + search.length ≤ s.length := by
  induction s generalizing p with
  | nil =>
    simp only [find_first] at h
    split at h
    · rename_i he
      simp at h
      simp [List.isEmpty_iff] at he
      subst he; subst h; simp
    · simp at h
  | cons c cs ih =>
    simp only [find_first] at h
    split at h
    · rename_i hp
      simp at h; subst h
      have := (List.isPrefixOf_iff_prefix.mp hp).length_le
      simpa using this
    · cases hq : find_first search cs with
      | none => simp [hq] at h
      | some q =>
        simp [hq] at h
        have := ih hq
        subst h
        simp; omega

theorem replace_all_none {search replace s : string} (h : find_first search s = none) :
    replace_all search replace s = s := by
  rw [replace_all]
  split
  · rfl
  · rename_i p hp; rw [h] at hp; cases hp

theorem replace_all_some {search replace s : string} {p : Nat} (hs : search ≠ [])
    (h : find_first search s = some p) :
    replace_all search replace s
      = s.take p ++ replace ++ replace_all search replace (s.drop (p + search.length)) := by
  rw [replace_all]
  split
  · rename_i hp; rw [h] at hp; cases hp
  · rename_i q hq
    rw [h] at hq
    cases hq
    have : search.isEmpty = false := by cases search <;> simp at hs ⊢
    simp [this]

theorem string_replace_loop_eq {str search replace : string} (hs : search ≠ []) :
    ∀ (fuel start_pos : Nat) (ws_ret : string), start_pos ≤ str.length →
      str.length - start_pos < fuel →
      string_replace_loop str search replace fuel start_pos ws_ret
        = some (.ok (ws_ret ++ replace_all search replace (str.drop start_pos))) := by
  intro fuel
  induction fuel with
  | zero => intro _ _ _ h; omega
  | succ fuel ih =>
    intro start_pos ws_ret hle hfuel
    have hsub : ¬ str.length < start_pos := by omega
    cases hq : find_first search (str.drop start_pos) with
    | none =>
      simp [string_replace_loop, find, hle, hq, substr, hsub, replace_all_none hq]
    | some q =>
      have hb := find_first_bounds hq
      have hpos : 0 < search.length := List.length_pos.mpr hs
      simp only [List.length_drop] at hb
      simp only [string_replace_loop, find, hle, hq, substr, hsub, if_true, if_false,
        Option.map_some']
      rw [ih _ _ (by omega) (by omega), replace_all_some hs hq]
      simp only [List.drop_drop, List.append_assoc, List.nil_append]
      rw [Nat.add_sub_cancel, show q + start_pos + search.length = start_pos + (q + search.length) by omega]

theorem string_replace_eq (str search replace : string) (hs : search ≠ []) :
    string_replace str search replace = some (.ok (replace_all search replace str)) := by
  have he : search.isEmpty = false := by cases search <;> simp at hs ⊢
  simp only [string_replace, he]
  rw [string_replace_loop_eq hs _ _ _ (Nat.zero_le _) (by omega)]
  simp

theorem find_first_occurs {search s : string} {p : Nat} (h : find_first search s = some p) :
    search <+: s.drop p := by
  induction s generalizing p with
  | nil =>
    simp only [find_first] at h
    split at h
    · rename_i he
      simp [List.isEmpty_iff] at he
      subst he; simp
    · simp at h
  | cons c cs ih =>
    simp only [find_first] at h
    split at h
    · rename_i hp
      simp at h; subst h
      simpa using List.isPrefixOf_iff_prefix.mp hp
    · cases hq : find_first search cs with
      | none => simp [hq] at h
      | some q =>
        simp [hq] at h
        subst h
        simpa using ih hq

theorem find_first_absent {search s : string} (h : ¬ search <:+: s) :
    find_first search s = none := by
  cases hq : find_first search s with
  | none => rfl
  | some p =>
    exfalso
    apply h
    obtain ⟨t, ht⟩ := find_first_occurs hq
    exact ⟨s.take p, t, by rw [List.append_assoc, ht, List.take_append_drop]⟩

theorem find_first_at (search b : string) :
    ∀ (a : string), (∀ k < a.length, ¬ search <+: (a ++ search ++ b).drop k) →
      find_first search (a ++ search ++ b) = some a.length := by
  intro a
  induction a with
  | nil =>
    intro _
    cases hsb : search ++ b with
    | nil =>
      have h1 : search = [] := (List.append_eq_nil.mp hsb).1
      have h2 : b = [] := (List.append_eq_nil.mp hsb).2
      subst h1; subst h2
      simp [find_first]
    | cons c cs =>
      have hp : search.isPrefixOf (c :: cs) = true := by
        rw [List.isPrefixOf_iff_prefix, ← hsb]; exact List.prefix_append _ _
      simp [find_first, hsb, hp]
  | cons x a ih =>
    intro h
    have h0 : ¬ search.isPrefixOf (x :: (a ++ search ++ b)) = true := by
      rw [List.isPrefixOf_iff_prefix]
      simpa using h 0 (by simp)
    have ih1 := ih (fun k hk => by simpa using h (k + 1) (by simpa using hk))
    rw [show x :: a ++ search ++ b = x :: (a ++ search ++ b) by simp]
    rw [find_first, if_neg h0, ih1]
    simp


/-! ## Lemmas on the read loop of `download_remote_file` -/

theorem get_remote_json_of_body {J : Type} (env : Env J) (url : string)
    (response : http_response) (body : string)
    (hreq : env.http_client_request url (json_request env) = some response)
    (hstatus : response.status_code = 200) (hbody : response.utf8string = some body) :
    get_remote_json env url
      = match get_remote_json_parse env body with
        | .error .invalid_argument => .ok none
        | r => r := by
  simp [get_remote_json, get_remote_json_body, hreq, hstatus, hbody]

/-! ## `download_remote_file` -/

/-- C4, the code at the failing inputs. When the request task fails with `http_exception`
the exception leaves `download_remote_file` and the file that existed at the local path is
still there; when the second chunk read fails, the exception leaves the function as well and
the first chunk stays in the file at the local path. In neither case does the function return
`false` and remove the file. -/
theorem download_transport_fault_escapes :
    (download_remote_file (test_env none)
        old_file "http://host/f".toList "old.bin".toList false).1 = .error .http_exception
      ∧ (download_remote_file (test_env none)
        old_file "http://host/f".toList "old.bin".toList false).2 "old.bin".toList
          = some (.file "old".toList)
      ∧ (download_remote_file
          (test_env (some (test_response 200 (some 5)
            [some "he".toList, none])))
        no_files "http://host/f".toList "f.bin".toList false).1 = .error .http_exception
      ∧ (download_remote_file
          (test_env (some (test_response 200 (some 5)
            [some "he".toList, none])))
        no_files "http://host/f".toList "f.bin".toList false).2 "f.bin".toList
          = some (.file "he".toList) := by
  decide

/-- C9 (the status code is not looked at). Relabelling the response with any status code
changes neither the result of `download_remote_file` nor the file system it leaves; and a
response with status 404 whose body `Not Found` has the declared length 9 makes the function
return `true` and leaves the error body at the local path. -/
theorem download_ignores_status :
    (∀ {J : Type} (env : Env J) (fs : FileSystem) (url local_path : string)
        (use_fake_ua : Bool) (s : Nat),
      download_remote_file (env.with_status s) fs url local_path use_fake_ua
        = download_remote_file env fs url local_path use_fake_ua)
    ∧ (download_remote_file
          (test_env (some (test_response 404 (some 9) [some "Not Found".toList])))
        no_files "http://host/f".toList "f.bin".toList false).1 = .ok true
    ∧ (download_remote_file
          (test_env (some (test_response 404 (some 9) [some "Not Found".toList])))
        no_files "http://host/f".toList "f.bin".toList false).2 "f.bin".toList
          = some (.file "Not Found".toList) := by
  refine ⟨?_, by decide, by decide⟩
  intro J env fs url local_path use_fake_ua s
  simp only [download_remote_file, Env.with_status, download_request]
  cases env.http_client_request url _ <;> rfl

/-! ## `get_remote_json` -/

/-- C5 (non-success status). When the request is answered by a response whose status code is
not 200, `get_remote_json` returns `nullopt`, whatever the body of the response is and whatever
`json::parse` would do on any input: the parser has no part in the result. -/
theorem get_remote_json_non_success {J : Type} (env : Env J) (url : string)
    (response : http_response)
    (hreq : env.http_client_request url (json_request env) = some response)
    (hstatus : response.status_code ≠ 200) :
    ∀ parse : string → Except Exn J,
      get_remote_json { env with json_parse := parse } url = .ok none := by
  intro parse
  have hreq1 : env.http_client_request url
      (json_request { env with json_parse := parse }) = some response := hreq
  simp [get_remote_json, get_remote_json_body, hreq1, hstatus, get_remote_json_parse]

/-- Witness of C5: status 404 with a body that is valid JSON. -/
theorem get_remote_json_non_success_witness :
    get_remote_json (test_env (some (text_response 404 "\x7b\"a\": 1\x7d".toList)))
        "http://host/j".toList = .ok none :=
  get_remote_json_non_success (test_env (some (text_response 404 "\x7b\"a\": 1\x7d".toList)))
    "http://host/j".toList (text_response 404 "\x7b\"a\": 1\x7d".toList) rfl (by decide)
    reference_parse

/-- C6 (success). When the request is answered by a response with status 200: if the body `B`
is valid JSON (it is not empty and `json::parse` yields the value `j` on it),
`get_remote_json` returns the present value `j`; and if `get_remote_json` returns `nullopt`,
then the body was extracted and it is empty or `json::parse` rejects it. -/
theorem get_remote_json_success {J : Type} (env : Env J) (url : string)
    (response : http_response)
    (hreq : env.http_client_request url (json_request env) = some response)
    (hstatus : response.status_code = 200) :
    (∀ (B : string) (j : J), response.utf8string = some B → B ≠ [] →
        env.json_parse B = .ok j → get_remote_json env url = .ok (some j))
    ∧ (get_remote_json env url = .ok none →
        ∃ B, response.utf8string = some B
          ∧ (B = [] ∨ env.json_parse B = .error .invalid_argument)) := by
  constructor
  · intro B j hbody hne hparse
    have he : B.isEmpty = false := by cases B <;> simp at hne ⊢
    rw [get_remote_json_of_body env url response B hreq hstatus hbody]
    simp [get_remote_json_parse, he, hparse]
  · intro hres
    cases hbody : response.utf8string with
    | none => simp [get_remote_json, get_remote_json_body, hreq, hstatus, hbody] at hres
    | some B =>
      refine ⟨B, rfl, ?_⟩
      rw [get_remote_json_of_body env url response B hreq hstatus hbody] at hres
      cases B with
      | nil => exact Or.inl rfl
      | cons c cs =>
        right
        cases hparse : env.json_parse (c :: cs) with
        | ok j => simp [get_remote_json_parse, hparse] at hres
        | error e =>
          cases e <;> simp [get_remote_json_parse, hparse] at hres ⊢

/-- Witness of C6: status 200 with a body that holds a JSON object. -/
theorem get_remote_json_success_witness :
    get_remote_json (test_env (some (text_response 200 "\x7b\"a\": [1, true]\x7d".toList)))
        "http://host/j".toList
      = .ok (some (json.object
          [("a".toList, json.array [json.number "1".toList, json.boolean true])])) :=
  (get_remote_json_success (test_env (some (text_response 200 "\x7b\"a\": [1, true]\x7d".toList)))
    "http://host/j".toList (text_response 200 "\x7b\"a\": [1, true]\x7d".toList) rfl rfl).1
    "\x7b\"a\": [1, true]\x7d".toList _ rfl (by decide) rfl

/-- C7 (malformed body). When the request is answered by a response with status 200 whose body
is not empty and makes `json::parse` throw `invalid_argument`, the exception is caught inside
`get_remote_json`, which returns `nullopt`: no exception reaches the caller. -/
theorem get_remote_json_malformed {J : Type} (env : Env J) (url : string)
    (response : http_response) (B : string)
    (hreq : env.http_client_request url (json_request env) = some response)
    (hstatus : response.status_code = 200) (hbody : response.utf8string = some B)
    (hne : B ≠ []) (hparse : env.json_parse B = .error .invalid_argument) :
    get_remote_json env url = .ok none := by
  have he : B.isEmpty = false := by cases B <;> simp at hne ⊢
  rw [get_remote_json_of_body env url response B hreq hstatus hbody]
  simp [get_remote_json_parse, he, hparse]

/-- Witness of C7: the body is an opening brace followed by `not json`, which the reference
parser rejects. -/
theorem get_remote_json_malformed_witness :
    reference_parse "\x7bnot json".toList = .error .invalid_argument
      ∧ get_remote_json (test_env (some (text_response 200 "\x7bnot json".toList)))
        "http://host/j".toList = .ok none :=
  ⟨rfl, get_remote_json_malformed (test_env (some (text_response 200 "\x7bnot json".toList)))
    "http://host/j".toList (text_response 200 "\x7bnot json".toList) "\x7bnot json".toList
    rfl rfl rfl (by decide) rfl⟩

/-! ## `hmac_sha1_hex` -/

theorem be_bytes_length (n x : Nat) : (be_bytes n x).length = n := by
  induction n generalizing x with
  | zero => rfl
  | succ n ih => simp [be_bytes, ih]

theorem be_bytes_lt (n x : Nat) : ∀ b ∈ be_bytes n x, b < 256 := by
  induction n generalizing x with
  | zero => simp [be_bytes]
  | succ n ih =>
    intro b hb
    simp only [be_bytes, List.mem_append, List.mem_singleton] at hb
    rcases hb with hb | hb
    · exact ih _ b hb
    · subst hb; exact Nat.mod_lt _ (by decide)

theorem sha1_length (msg : List Nat) : (sha1 msg).length = 20 := by
  simp [sha1, be_bytes_length]

theorem sha1_lt (msg : List Nat) : ∀ b ∈ sha1 msg, b < 256 := by
  intro b hb
  simp only [sha1, List.mem_append] at hb
  rcases hb with (((hb | hb) | hb) | hb) | hb <;> exact be_bytes_lt _ _ b hb

theorem hex_stream_eq (digest : List Nat) (ss : string) :
    digest.foldl (fun ss byte => ss ++ hex_setw2 byte) ss
      = ss ++ (digest.map hex_setw2).flatten := by
  induction digest generalizing ss with
  | nil => simp
  | cons b bs ih => simp [ih, List.append_assoc]

set_option maxRecDepth 100000 in
theorem hex_setw2_byte : ∀ b < 256,
    hex_setw2 b = [Nat.digitChar (b / 16), Nat.digitChar (b % 16)] := by
  decide

theorem hex_digit_value : ∀ n < 16,
    hex_value (Nat.digitChar n) = some n ∧ Nat.digitChar n ∈ "0123456789abcdef".toList := by
  decide

theorem hex_decode_encode (digest : List Nat) (h : ∀ b ∈ digest, b < 256) :
    hex_decode (digest.map hex_setw2).flatten = some digest := by
  induction digest with
  | nil => rfl
  | cons b bs ih =>
    have hb : b < 256 := h b (by simp)
    have h1 := (hex_digit_value (b / 16) (by omega)).1
    have h2 := (hex_digit_value (b % 16) (by omega)).1
    have ih1 := ih (fun c hc => h c (by simp [hc]))
    simp only [List.map_cons, List.flatten_cons, hex_setw2_byte b hb, List.cons_append,
      List.nil_append, hex_decode, h1, h2, ih1]
    congr 2
    omega

theorem hex_encode_chars (digest : List Nat) (h : ∀ b ∈ digest, b < 256) :
    ∀ c ∈ (digest.map hex_setw2).flatten, c ∈ "0123456789abcdef".toList := by
  intro c hc
  simp only [List.mem_flatten, List.mem_map] at hc
  obtain ⟨l, ⟨b, hb, rfl⟩, hcl⟩ := hc
  have hb1 : b < 256 := h b hb
  rw [hex_setw2_byte b hb1] at hcl
  simp only [List.mem_cons, List.mem_singleton, List.not_mem_nil, or_false] at hcl
  rcases hcl with rfl | rfl
  · exact (hex_digit_value (b / 16) (by omega)).2
  · exact (hex_digit_value (b % 16) (by omega)).2

theorem hex_encode_length (digest : List Nat) (h : ∀ b ∈ digest, b < 256) :
    (digest.map hex_setw2).flatten.length = 2 * digest.length := by
  induction digest with
  | nil => rfl
  | cons b bs ih =>
    have hb : b < 256 := h b (by simp)
    have ih1 := ih (fun c hc => h c (by simp [hc]))
    simp only [List.map_cons, List.flatten_cons, List.length_append, ih1,
      hex_setw2_byte b hb, List.length_cons, List.length_nil]
    omega

set_option maxRecDepth 100000 in
theorem hmac_sha1_hex_test_vector :
    hmac_sha1_hex "key".toList "The quick brown fox jumps over the lazy dog".toList
      = "de7c9b85b8b78aa6bc8a7a36f70a90701c9db4d9".toList := by
  decide

/-- C8 (output of `hmac_sha1_hex`). For every key and message the HMAC-SHA1 digest has 20
bytes, each below 256, and `hmac_sha1_hex` returns these bytes in order, each written as
exactly two lower-case hexadecimal digits (the high digit first, `0` for a byte below 16): the
result has exactly 40 characters, all among `0-9a-f`, and decoding it gives back the digest.
On the key `key` and the message `The quick brown fox jumps over the lazy dog` the result is
`de7c9b85b8b78aa6bc8a7a36f70a90701c9db4d9`. -/
theorem hmac_sha1_hex_output :
    (∀ key msg : string,
      (HMAC_SHA1 (unsigned_chars key) (unsigned_chars msg)).length = 20
      ∧ (∀ b ∈ HMAC_SHA1 (unsigned_chars key) (unsigned_chars msg), b < 256)
      ∧ hmac_sha1_hex key msg
          = ((HMAC_SHA1 (unsigned_chars key) (unsigned_chars msg)).map
              fun b => [Nat.digitChar (b / 16), Nat.digitChar (b % 16)]).flatten
      ∧ (hmac_sha1_hex key msg).length = 40
      ∧ (∀ c ∈ hmac_sha1_hex key msg, c ∈ "0123456789abcdef".toList)
      ∧ hex_decode (hmac_sha1_hex key msg)
          = some (HMAC_SHA1 (unsigned_chars key) (unsigned_chars msg)))
    ∧ hmac_sha1_hex "key".toList "The quick brown fox jumps over the lazy dog".toList
        = "de7c9b85b8b78aa6bc8a7a36f70a90701c9db4d9".toList := by
  refine ⟨?_, hmac_sha1_hex_test_vector⟩
  intro key msg
  have hlen : (HMAC_SHA1 (unsigned_chars key) (unsigned_chars msg)).length = 20 :=
    sha1_length _
  have hlt : ∀ b ∈ HMAC_SHA1 (unsigned_chars key) (unsigned_chars msg), b < 256 :=
    sha1_lt _
  have heq : hmac_sha1_hex key msg
      = ((HMAC_SHA1 (unsigned_chars key) (unsigned_chars msg)).map hex_setw2).flatten := by
    simp [hmac_sha1_hex, hex_stream_eq]
  have hmap : (HMAC_SHA1 (unsigned_chars key) (unsigned_chars msg)).map hex_setw2
      = (HMAC_SHA1 (unsigned_chars key) (unsigned_chars msg)).map
          fun b => [Nat.digitChar (b / 16), Nat.digitChar (b % 16)] :=
    List.map_congr_left fun b hb => hex_setw2_byte b (hlt b hb)
  have h40 := hex_encode_length _ hlt
  have hchars := hex_encode_chars _ hlt
  have hdec := hex_decode_encode _ hlt
  rw [← heq] at h40 hchars hdec
  rw [hlen] at h40
  exact ⟨hlen, hlt, by rw [heq, hmap], h40, hchars, hdec⟩

/-! ## `string_replace` -/

/-- C10 (`string_replace`). The function terminates without an exception on every input (the
fuel of the loop is never used up). The string it leaves in `str` is `str` itself when
`search` is empty or does not occur in `str`; and when `search` is not empty and its first
occurrence in `str = a ++ search ++ b` starts right after `a` (it is a prefix of no suffix of
`str` that starts earlier), the string left is `a ++ replace ++ r`, with `r` the string that
`string_replace` leaves for `b`: the inserted text is not scanned again. -/
theorem string_replace_spec (str search replace : string) :
    (∃ r, string_replace str search replace = some (.ok r))
    ∧ (search = [] ∨ ¬ search <:+: str → string_replace str search replace = some (.ok str))
    ∧ (∀ a b : string, search ≠ [] → str = a ++ search ++ b →
        (∀ k < a.length, ¬ search <+: str.drop k) →
        ∃ r, string_replace b search replace = some (.ok r) ∧
          string_replace str search replace = some (.ok (a ++ replace ++ r))) := by
  refine ⟨?_, ?_, ?_⟩
  · by_cases hs : search = []
    · exact ⟨str, by simp [string_replace, hs]⟩
    · exact ⟨_, string_replace_eq _ _ _ hs⟩
  · rintro (h | h)
    · simp [string_replace, h]
    · by_cases hs : search = []
      · simp [string_replace, hs]
      · rw [string_replace_eq _ _ _ hs, replace_all_none (find_first_absent h)]
  · intro a b hs hstr hfirst
    refine ⟨replace_all search replace b, string_replace_eq _ _ _ hs, ?_⟩
    subst hstr
    rw [string_replace_eq _ _ _ hs, replace_all_some hs (find_first_at search b a hfirst)]
    simp [List.append_assoc]

/-- Witness of C10: `search` is `a` and `replace` is `aa`, which contains `search`; in
`banana` the first occurrence starts right after `b`. -/
theorem string_replace_spec_witness :
    string_replace "nana".toList "a".toList "aa".toList = some (.ok "naanaa".toList)
    ∧ string_replace "banana".toList "a".toList "aa".toList = some (.ok "baanaanaa".toList)
    ∧ ∃ r, string_replace "nana".toList "a".toList "aa".toList = some (.ok r) ∧
      string_replace "banana".toList "a".toList "aa".toList
        = some (.ok ("b".toList ++ "aa".toList ++ r)) :=
  ⟨by decide, by decide,
    (string_replace_spec "banana".toList "a".toList "aa".toList).2.2 "b".toList "nana".toList
      (by decide) (by decide) (by decide)⟩

end Helpers
